import Mathlib

/-!
Verification of the expense-tracker core (`app.py`): record codec,
save/load round trip, CRUD store operations, filtering, and the two-path
budget aggregation engine.

Modelling conventions:
* Python `float` amounts are modelled as exact rationals (`ℚ`); Python
  `int` identifiers as `Int`.  The runtime conversions `str`/`int`/`float`
  used at the CSV boundary are exact inverses in CPython, so rows carry
  these two fields as typed values, while the string processing the
  program implements itself (ISO date rendering/parsing and the pipe
  join/split of tags) is modelled on strings character by character.
* Python `datetime` is modelled by year/month/day/hour/minute/second;
  microseconds and time zones are never produced on the modelled paths.
* The mutable module state of `app.py` (the `expenses` list and the class
  counter `Expense._next_id`) is threaded explicitly as a `State` value.
-/

namespace ExpenseTracker

/-- Calendar instant, modelled after Python's `datetime` as used by
`app.py` (no microseconds, no time zone). -/
structure DateTime where
  year : Nat
  month : Nat
  day : Nat
  hour : Nat
  minute : Nat
  second : Nat
deriving DecidableEq

/-- Gregorian leap-year rule, as in Python's `calendar.isleap`. -/
def isLeapYear (y : Nat) : Bool :=
  y % 4 == 0 && (y % 100 != 0 || y % 400 == 0)

/-- Days in a month, as enforced by the `datetime` constructor. -/
def daysInMonth (y m : Nat) : Nat :=
  if m = 2 then (if isLeapYear y then 29 else 28)
  else if m = 4 ∨ m = 6 ∨ m = 9 ∨ m = 11 then 30
  else 31

/-- Field ranges enforced by Python's `datetime` constructor. -/
def DateTime.Valid (d : DateTime) : Prop :=
  1 ≤ d.year ∧ d.year ≤ 9999 ∧ 1 ≤ d.month ∧ d.month ≤ 12 ∧
  1 ≤ d.day ∧ d.day ≤ daysInMonth d.year d.month ∧
  d.hour ≤ 23 ∧ d.minute ≤ 59 ∧ d.second ≤ 59

instance : DecidablePred DateTime.Valid := fun d => by
  unfold DateTime.Valid; infer_instance

/-- Decimal digit of a character, `none` if not a digit. -/
def parseDigit (c : Char) : Option Nat :=
  if '0' ≤ c ∧ c ≤ '9' then some (c.toNat - 48) else none

/-- Two-digit field of an ISO string. -/
def parse2 (a b : Char) : Option Nat :=
  match parseDigit a, parseDigit b with
  | some x, some y => some (10 * x + y)
  | _, _ => none

/-- Four-digit field of an ISO string. -/
def parse4 (a b c d : Char) : Option Nat :=
  match parseDigit a, parseDigit b, parseDigit c, parseDigit d with
  | some w, some x, some y, some z => some (1000 * w + 100 * x + 10 * y + z)
  | _, _, _, _ => none

/-- Range validation of the `datetime` constructor: `datetime(y,mo,d,...)`
raises `ValueError` outside these bounds. -/
def mkDateTime (y mo d h mi s : Nat) : Option DateTime :=
  if 1 ≤ y ∧ y ≤ 9999 ∧ 1 ≤ mo ∧ mo ≤ 12 ∧ 1 ≤ d ∧ d ≤ daysInMonth y mo ∧
     h ≤ 23 ∧ mi ≤ 59 ∧ s ≤ 59
  then some ⟨y, mo, d, h, mi, s⟩ else none

/-- Character-level model of `datetime.fromisoformat` for the shapes the
tracker reads and writes: `YYYY-MM-DD`, `YYYY-MM-DD*HH:MM` and
`YYYY-MM-DD*HH:MM:SS` (any single separator character, as in CPython;
fractional seconds and offsets are never produced by this program). -/
def fromisoChars : List Char → Option DateTime
  | [y1, y2, y3, y4, s1, m1, m2, s2, d1, d2] =>
    if s1 = '-' ∧ s2 = '-' then
      match parse4 y1 y2 y3 y4, parse2 m1 m2, parse2 d1 d2 with
      | some y, some mo, some dd => mkDateTime y mo dd 0 0 0
      | _, _, _ => none
    else none
  | [y1, y2, y3, y4, s1, m1, m2, s2, d1, d2, _sep, h1, h2, c1, n1, n2] =>
    if s1 = '-' ∧ s2 = '-' ∧ c1 = ':' then
      match parse4 y1 y2 y3 y4, parse2 m1 m2, parse2 d1 d2,
            parse2 h1 h2, parse2 n1 n2 with
      | some y, some mo, some dd, some h, some n => mkDateTime y mo dd h n 0
      | _, _, _, _, _ => none
    else none
  | [y1, y2, y3, y4, s1, m1, m2, s2, d1, d2, _sep, h1, h2, c1, n1, n2, c2, e1, e2] =>
    if s1 = '-' ∧ s2 = '-' ∧ c1 = ':' ∧ c2 = ':' then
      match parse4 y1 y2 y3 y4, parse2 m1 m2, parse2 d1 d2,
            parse2 h1 h2, parse2 n1 n2, parse2 e1 e2 with
      | some y, some mo, some dd, some h, some n, some s =>
        mkDateTime y mo dd h n s
      | _, _, _, _, _, _ => none
    else none
  | _ => none

/-- Model of `datetime.fromisoformat` on strings. -/
def fromisoformat (s : String) : Option DateTime :=
  fromisoChars s.data

/-- Two-digit zero-padded rendering, as in `datetime.isoformat`. -/
def pad2 (n : Nat) : List Char :=
  [Nat.digitChar (n / 10), Nat.digitChar (n % 10)]

/-- Four-digit zero-padded rendering of the year. -/
def pad4 (n : Nat) : List Char :=
  [Nat.digitChar (n / 1000), Nat.digitChar (n / 100 % 10),
   Nat.digitChar (n / 10 % 10), Nat.digitChar (n % 10)]

/-- The `YYYY-MM-DD` date part of `datetime.isoformat`. -/
def isodateChars (d : DateTime) : List Char :=
  pad4 d.year ++ '-' :: pad2 d.month ++ '-' :: pad2 d.day

/-- The `HH:MM:SS` time part of `datetime.isoformat`. -/
def isotimeChars (d : DateTime) : List Char :=
  pad2 d.hour ++ ':' :: pad2 d.minute ++ ':' :: pad2 d.second

/-- Date part as a string. -/
def isodate (d : DateTime) : String := ⟨isodateChars d⟩

/-- Time part as a string. -/
def isotime (d : DateTime) : String := ⟨isotimeChars d⟩

/-- Model of `datetime.isoformat()`: date part, separator `T`, time part
(seconds always present; microseconds are zero on every modelled path and
then omitted by CPython). -/
def DateTime.isoformat (d : DateTime) : String :=
  ⟨isodateChars d ++ 'T' :: isotimeChars d⟩

theorem daysInMonth_le (y m : Nat) : daysInMonth y m ≤ 31 := by
  unfold daysInMonth
  repeat' split
  all_goals omega

theorem parseDigit_digitChar (x : Nat) (h : x < 10) :
    parseDigit (Nat.digitChar x) = some x := by
  interval_cases x <;> decide

theorem parse2_pad2 (n : Nat) (h : n ≤ 99) :
    parse2 (Nat.digitChar (n / 10)) (Nat.digitChar (n % 10)) = some n := by
  rw [parse2, parseDigit_digitChar (n / 10) (by omega),
    parseDigit_digitChar (n % 10) (by omega)]
  simp only [Option.some.injEq]
  omega

theorem parse4_pad4 (n : Nat) (h : n ≤ 9999) :
    parse4 (Nat.digitChar (n / 1000)) (Nat.digitChar (n / 100 % 10))
      (Nat.digitChar (n / 10 % 10)) (Nat.digitChar (n % 10)) = some n := by
  rw [parse4, parseDigit_digitChar (n / 1000) (by omega),
    parseDigit_digitChar (n / 100 % 10) (by omega),
    parseDigit_digitChar (n / 10 % 10) (by omega),
    parseDigit_digitChar (n % 10) (by omega)]
  simp only [Option.some.injEq]
  omega

/-- Round trip of the date codec: parsing the rendered ISO form of any
constructor-valid instant yields the instant back. -/
theorem fromisoformat_isoformat (d : DateTime) (h : d.Valid) :
    fromisoformat d.isoformat = some d := by
  obtain ⟨y, mo, dd, hh, mi, s⟩ := d
  obtain ⟨h1, h2, h3, h4, h5, h6, h7, h8, h9⟩ := h
  simp only [fromisoformat, DateTime.isoformat, isodateChars, isotimeChars,
    pad4, pad2] at *
  simp only [List.cons_append, List.nil_append, fromisoChars]
  rw [if_pos (by simp)]
  have hdd : dd ≤ 99 := le_trans h6 (le_trans (daysInMonth_le y mo) (by omega))
  rw [parse4_pad4 y (by omega), parse2_pad2 mo (by omega),
    parse2_pad2 dd (by omega), parse2_pad2 hh (by omega),
    parse2_pad2 mi (by omega), parse2_pad2 s (by omega)]
  have hc : 1 ≤ y ∧ y ≤ 9999 ∧ 1 ≤ mo ∧ mo ≤ 12 ∧ 1 ≤ dd ∧
      dd ≤ daysInMonth y mo ∧ hh ≤ 23 ∧ mi ≤ 59 ∧ s ≤ 59 :=
    ⟨h1, h2, h3, h4, h5, h6, h7, h8, h9⟩
  simp only [mkDateTime, if_pos hc]

/-- Character-level model of the Python `"|".join(tags)` call in
`save_expenses`. -/
def joinPipe : List (List Char) → List Char
  | [] => []
  | [l] => l
  | l :: l2 :: ls => l ++ '|' :: joinPipe (l2 :: ls)

/-- Character-level model of the Python `tags.split('|')` call in
`load_expenses` (applied only to a non-empty tags field there). -/
def splitPipe : List Char → List (List Char)
  | [] => [[]]
  | c :: rest =>
    match splitPipe rest with
    | [] => [[]]
    | g :: gs => if c = '|' then [] :: g :: gs else (c :: g) :: gs

/-- Tag-list serialization of `save_expenses`. -/
def joinTags (tags : List String) : String :=
  ⟨joinPipe (tags.map String.data)⟩

/-- Tag-string splitting of `load_expenses` for a non-empty field. -/
def splitTags (s : String) : List String :=
  (splitPipe s.data).map String.mk

theorem splitPipe_ne_nil (l : List Char) : splitPipe l ≠ [] := by
  induction l with
  | nil => simp [splitPipe]
  | cons c rest ih =>
    simp only [splitPipe]
    cases hr : splitPipe rest with
    | nil => exact absurd hr ih
    | cons g gs => by_cases hc : c = '|' <;> simp [hc]

theorem splitPipe_cons_pipe (cs : List Char) :
    splitPipe ('|' :: cs) = [] :: splitPipe cs := by
  simp only [splitPipe]
  match h : splitPipe cs with
  | [] => exact absurd h (splitPipe_ne_nil cs)
  | g :: gs => simp

theorem splitPipe_append_pipe (l cs : List Char) (h : '|' ∉ l) :
    splitPipe (l ++ '|' :: cs) = l :: splitPipe cs := by
  induction l with
  | nil => simpa using splitPipe_cons_pipe cs
  | cons c rest ih =>
    have hc : c ≠ '|' := fun hc => h (by simp [hc])
    have hr : '|' ∉ rest := fun hr => h (by simp [hr])
    simp only [List.cons_append, splitPipe, List.append_eq]
    rw [ih hr]
    simp [hc]

theorem splitPipe_no_pipe (l : List Char) (h : '|' ∉ l) :
    splitPipe l = [l] := by
  induction l with
  | nil => rfl
  | cons c rest ih =>
    have hc : c ≠ '|' := fun hc => h (by simp [hc])
    have hr : '|' ∉ rest := fun hr => h (by simp [hr])
    simp only [splitPipe, ih hr]
    simp [hc]

/-- Round trip of the pipe codec on non-empty tag lists whose tags avoid
the reserved separator. -/
theorem splitPipe_joinPipe (ls : List (List Char)) (h0 : ls ≠ [])
    (h : ∀ l ∈ ls, '|' ∉ l) : splitPipe (joinPipe ls) = ls := by
  induction ls with
  | nil => exact absurd rfl h0
  | cons l rest ih =>
    match rest with
    | [] => exact splitPipe_no_pipe l (h l (by simp))
    | l2 :: ls2 =>
      rw [joinPipe, splitPipe_append_pipe l _ (h l (by simp))]
      rw [ih (by simp) (fun x hx => h x (by simp [hx]))]

theorem joinPipe_eq_nil_iff (ls : List (List Char)) :
    joinPipe ls = [] ↔ ls = [] ∨ ls = [[]] := by
  match ls with
  | [] => simp [joinPipe]
  | [l] => simp [joinPipe]
  | l :: l2 :: ls2 => simp [joinPipe]

theorem string_mk_data (s : String) : String.mk s.data = s := rfl

/-- Round trip of the tag codec at string level. -/
theorem splitTags_joinTags (tags : List String) (h0 : tags ≠ [])
    (h : ∀ t ∈ tags, ('|' : Char) ∉ t.data) :
    splitTags (joinTags tags) = tags := by
  unfold splitTags joinTags
  rw [splitPipe_joinPipe (tags.map String.data) (by simpa using h0)
    (by intro l hl
        obtain ⟨t, ht, rfl⟩ := List.mem_map.mp hl
        exact h t ht)]
  rw [List.map_map]
  exact List.map_id'' (fun t => rfl) tags

theorem joinTags_ne_empty (tags : List String) (h0 : tags ≠ [])
    (h1 : tags ≠ [""]) : joinTags tags ≠ "" := by
  unfold joinTags
  intro hc
  have hdata : joinPipe (tags.map String.data) = [] := congrArg String.data hc
  rcases (joinPipe_eq_nil_iff _).mp hdata with h | h
  · exact h0 (by simpa using h)
  · apply h1
    cases tags with
    | nil => simp at h
    | cons t ts =>
      cases ts with
      | nil =>
        simp only [List.map_cons, List.map_nil, List.cons.injEq, and_true] at h
        have ht : t = "" := by cases t; simp_all
        simp [ht]
      | cons t2 ts2 => simp at h

/-- Expense record, mirroring the fields of `Expense` in `app.py`.
Amounts are exact rationals standing for Python floats. -/
structure Expense where
  id : Int
  amount : ℚ
  category : String
  date : DateTime
  description : String
  tags : List String
deriving DecidableEq

/-- One persisted CSV row as produced by `Expense.to_dict` followed by
the tags join in `save_expenses`: `id`/`amount` are carried as their
typed values (the CPython `str`/`int`/`str`/`float` conversions at the
file boundary are exact inverses), `date` and `tags` as the strings the
program itself computes. -/
structure Row where
  id : Int
  amount : ℚ
  category : String
  date : String
  description : String
  tags : String
deriving DecidableEq

/-- Model of `Expense.to_dict` plus the tags join in `save_expenses`:
the date column is `self.date.isoformat()` and the tags column is
`"|".join(tags)`. -/
def encodeExpense (e : Expense) : Row :=
  ⟨e.id, e.amount, e.category, e.date.isoformat, e.description,
   joinTags e.tags⟩

/-- Model of `save_expenses`: every record of the list is encoded, in
order, into the fixed column layout. -/
def saveExpenses (es : List Expense) : List Row :=
  es.map encodeExpense

/-- Decoding of one row inside the `load_expenses` loop: the date is
parsed with `datetime.fromisoformat` (failure aborts, see `loadLoop`),
and the tags field is split on the pipe, an empty field giving `[]`. -/
def decodeRow (r : Row) : Option Expense :=
  match fromisoformat r.date with
  | none => none
  | some d =>
    some ⟨r.id, r.amount, r.category, d, r.description,
      if r.tags = "" then [] else splitTags r.tags⟩

/-- Loop of `load_expenses`, with the class counter `Expense._next_id`
threaded explicitly: each successful iteration constructs a temporary
`Expense` (consuming one counter value) whose id is then overwritten by
the row id; `max_id` accumulates; a decode failure is caught by the
surrounding `except`, which returns `[]` without running the final
counter reset; after a clean loop the counter is reset to `max_id + 1`
only when `max_id > 0`. -/
def loadLoop : List Row → Int → Int → List Expense → List Expense × Int
  | [], nid, maxId, acc => if maxId > 0 then (acc, maxId + 1) else (acc, nid)
  | r :: rest, nid, maxId, acc =>
    match decodeRow r with
    | none => ([], nid)
    | some e => loadLoop rest (nid + 1) (max maxId r.id) (acc ++ [e])

/-- Model of `load_expenses` on a list of rows already read from the
file, returning the loaded list and the value of `Expense._next_id`
afterwards. -/
def loadExpenses (rows : List Row) (nid : Int) : List Expense × Int :=
  loadLoop rows nid 0 []

/-- Per-record round trip: decoding an encoded record restores it, as
long as the date is constructor-valid, no tag contains the reserved
separator, and the tag list is not the single empty string. -/
theorem decodeRow_encodeExpense (e : Expense) (hd : e.date.Valid)
    (ht : ∀ t ∈ e.tags, ('|' : Char) ∉ t.data) (h1 : e.tags ≠ [""]) :
    decodeRow (encodeExpense e) = some e := by
  unfold decodeRow encodeExpense
  rw [fromisoformat_isoformat e.date hd]
  by_cases h0 : e.tags = []
  · simp [h0, joinTags, joinPipe]
    rw [← h0]
  · rw [if_neg (joinTags_ne_empty e.tags h0 h1),
      splitTags_joinTags e.tags h0 ht]

/-- Running maximum used in the `load_expenses` loop. -/
def maxRowId (rows : List Row) (m : Int) : Int :=
  rows.foldl (fun a r => max a r.id) m

/-- Behaviour of the load loop when every row decodes: the decoded
records are appended in order, and the counter becomes `max_id + 1`
when a positive id was seen, else it keeps the temporary increments. -/
theorem loadLoop_all_ok (rows : List Row) (nid m : Int) (acc : List Expense)
    (h : ∀ r ∈ rows, (decodeRow r).isSome) :
    loadLoop rows nid m acc =
      (acc ++ rows.filterMap decodeRow,
       if maxRowId rows m > 0 then maxRowId rows m + 1
       else nid + rows.length) := by
  induction rows generalizing nid m acc with
  | nil =>
    simp only [loadLoop, maxRowId, List.foldl_nil, List.filterMap_nil,
      List.append_nil, List.length_nil, Nat.cast_zero, add_zero, gt_iff_lt]
    split <;> rfl
  | cons r rest ih =>
    obtain ⟨e, he⟩ := Option.isSome_iff_exists.mp (h r (by simp))
    simp only [loadLoop, he]
    rw [ih (nid + 1) (max m r.id) (acc ++ [e])
      (fun x hx => h x (by simp [hx]))]
    have hlen : nid + 1 + (rest.length : Int) =
        nid + ((rest.length : Int) + 1) := by ring
    simp [maxRowId, List.filterMap_cons, he, hlen]

/-- Behaviour of the load loop when some row fails to decode: the whole
load is aborted by the surrounding `except`, returning `[]`; the counter
keeps the increments consumed by the temporaries built before the bad
row. -/
theorem loadLoop_abort (good : List Row) (bad : Row) (rest : List Row)
    (nid m : Int) (acc : List Expense)
    (hg : ∀ r ∈ good, (decodeRow r).isSome) (hb : decodeRow bad = none) :
    loadLoop (good ++ bad :: rest) nid m acc = ([], nid + good.length) := by
  induction good generalizing nid m acc with
  | nil => simp [loadLoop, hb]
  | cons r g ih =>
    obtain ⟨e, he⟩ := Option.isSome_iff_exists.mp (hg r (by simp))
    simp only [List.cons_append, loadLoop, he, List.append_eq]
    rw [ih (nid + 1) (max m r.id) (acc ++ [e])
      (fun x hx => hg x (by simp [hx]))]
    have hlen : nid + 1 + (g.length : Int) =
        nid + ((g.length : Int) + 1) := by ring
    simp [hlen]

/-- Mutable module state of `app.py`: the global `expenses` list and the
class counter `Expense._next_id`. -/
structure State where
  expenses : List Expense
  nextId : Int
deriving DecidableEq

/-- The state of a freshly started process: empty list, counter 1. -/
def initState : State := ⟨[], 1⟩

/-- Model of `create_expense` combined with the `Expense` constructor:
the date string is parsed first and a failure returns `None` before any
state is touched; on success the constructor hands out `_next_id`,
increments it, and the record is appended.  The Python default
`tags or []` maps `None` (and only `None` or `[]`) to `[]`. -/
def createExpense (st : State) (amount : ℚ) (category : String)
    (dateStr : String) (description : String)
    (tags : Option (List String)) : Option Expense × State :=
  match fromisoformat dateStr with
  | none => (none, st)
  | some d =>
    let e : Expense :=
      ⟨st.nextId, amount, category, d, description, tags.getD []⟩
    (some e, ⟨st.expenses ++ [e], st.nextId + 1⟩)

/-- Model of `get_expense`: first record with the given id. -/
def getExpense (st : State) (i : Int) : Option Expense :=
  st.expenses.find? (fun e => e.id == i)

/-- Field updates applied to the record found by `update_expense`, in
the exact order of the source: amount, category, then the date parse
(returning `False` there leaves amount/category already applied), then
description and tags. -/
def applyUpdate (e : Expense) (amount : Option ℚ) (category : Option String)
    (dateStr : Option String) (description : Option String)
    (tags : Option (List String)) : Bool × Expense :=
  let e1 := match amount with
    | some a => { e with amount := a }
    | none => e
  let e2 := match category with
    | some c => { e1 with category := c }
    | none => e1
  match dateStr with
  | some ds =>
    match fromisoformat ds with
    | none => (false, e2)
    | some d =>
      let e3 := { e2 with date := d }
      let e4 := match description with
        | some dsc => { e3 with description := dsc }
        | none => e3
      let e5 := match tags with
        | some t => { e4 with tags := t }
        | none => e4
      (true, e5)
  | none =>
    let e4 := match description with
      | some dsc => { e2 with description := dsc }
      | none => e2
    let e5 := match tags with
      | some t => { e4 with tags := t }
      | none => e4
    (true, e5)

/-- In-place mutation of the first record with the given id, as done by
`update_expense` through the object reference returned by
`get_expense`. -/
def updateFirst : List Expense → Int → (Expense → Bool × Expense) →
    Bool × List Expense
  | [], _, _ => (false, [])
  | e :: rest, i, f =>
    if e.id = i then
      ((f e).1, (f e).2 :: rest)
    else
      ((updateFirst rest i f).1, e :: (updateFirst rest i f).2)

/-- Model of `update_expense`. -/
def updateExpense (st : State) (i : Int) (amount : Option ℚ)
    (category : Option String) (dateStr : Option String)
    (description : Option String) (tags : Option (List String)) :
    Bool × State :=
  let p := updateFirst st.expenses i
    (fun e => applyUpdate e amount category dateStr description tags)
  (p.1, { st with expenses := p.2 })

/-- Model of `delete_expense`: filter out the id, report whether the
length shrank. -/
def deleteExpense (st : State) (i : Int) : Bool × State :=
  let es := st.expenses.filter (fun e => e.id ≠ i)
  (decide (es.length < st.expenses.length), { st with expenses := es })

/-- ASCII case folding of one character, the effect of Python's
`str.lower` on the ASCII texts this program compares. -/
def lowerChar (c : Char) : Char :=
  if 'A' ≤ c ∧ c ≤ 'Z' then Char.ofNat (c.toNat + 32) else c

/-- Model of Python's `str.lower`. -/
def lower (s : String) : String := ⟨s.data.map lowerChar⟩

/-- The whitespace class stripped by Python's `str.strip()`. -/
def isSpaceChar (c : Char) : Bool :=
  c = ' ' || c = '\t' || c = '\n' || c = '\r' || c = '\x0b' || c = '\x0c'

/-- Model of Python's `str.strip()`: drop whitespace from both ends. -/
def strip (s : String) : String :=
  ⟨((s.data.dropWhile isSpaceChar).reverse.dropWhile isSpaceChar).reverse⟩

/-- Model of `filter_expenses`: the category test fires only when the
argument is present with non-blank content, and compares the lowered
record category (not stripped) with the stripped, lowered argument; the
tag test likewise checks membership of the stripped, lowered argument in
the lowered (not stripped) record tags; both tests compose. -/
def filterExpenses (es : List Expense) (category : Option String)
    (tag : Option String) : List Expense :=
  let l1 := match category with
    | some c =>
      if strip c ≠ "" then
        es.filter (fun e => lower e.category == lower (strip c))
      else es
    | none => es
  match tag with
  | some t =>
    if strip t ≠ "" then
      l1.filter (fun e => (e.tags.map lower).contains (lower (strip t)))
    else l1
  | none => l1

/-- One per-category line of the report built by `check_budgets`. -/
structure CategoryReport where
  budget : ℚ
  spent : ℚ
  remaining : ℚ
  status : String
deriving DecidableEq

/-- Full return value of `check_budgets`. -/
structure BudgetReport where
  budgets : List (String × CategoryReport)
  overBudgetCount : Nat
  totalBudgets : Nat
deriving DecidableEq

/-- One step of the manual summary dictionary of `check_budgets`
(`if category in dict: += amount else: = amount`), with Python dict
insertion-order semantics. -/
def addToSummary : List (String × ℚ) → String → ℚ → List (String × ℚ)
  | [], c, a => [(c, a)]
  | (k, v) :: rest, c, a =>
    if k = c then (k, v + a) :: rest else (k, v) :: addToSummary rest c a

/-- The manual (pandas-unavailable) spending summary: a dict built by
iterating the expenses in order. -/
def manualSummary (es : List Expense) : List (String × ℚ) :=
  es.foldl (fun s e => addToSummary s e.category e.amount) []

/-- The `.get(category, 0.00)` read used on either summary. -/
def summaryGet (s : List (String × ℚ)) (c : String) : ℚ :=
  (s.lookup c).getD 0

/-- Spent amount per category on the manual path. -/
def manualSpent (es : List Expense) (c : String) : ℚ :=
  summaryGet (manualSummary es) c

/-- Spent amount per category on the pandas path: the denotation of
`df.groupby('category')['amount'].sum().get(c, 0.00)` — the sum of the
amounts of the records with exactly that category, `0` when there are
none. -/
def pandasSpent (es : List Expense) (c : String) : ℚ :=
  ((es.filter (fun e => e.category == c)).map Expense.amount).sum

/-- The report loop of `check_budgets`, identical token-for-token in the
manual and the pandas branch of the source apart from the summary it
reads; the summary read is abstracted as `spent`. -/
def budgetLoop (spent : String → ℚ) :
    List (String × ℚ) → List (String × CategoryReport) × Nat
  | [] => ([], 0)
  | (c, b) :: rest =>
    let s := spent c
    let rem := b - s
    let entry : CategoryReport :=
      ⟨b, s, rem, if rem < 0 then "Over Budget" else "Good"⟩
    let p := budgetLoop spent rest
    ((c, entry) :: p.1, (if rem < 0 then 1 else 0) + p.2)

/-- Model of `check_budgets` in a deployment without pandas: empty
expenses, then empty budgets, return the zeroed report before any
computation; otherwise the manual summary feeds the report loop. -/
def checkBudgetsManual (es : List Expense) (bs : List (String × ℚ)) :
    BudgetReport :=
  if es.isEmpty then ⟨[], 0, 0⟩
  else if bs.isEmpty then ⟨[], 0, 0⟩
  else
    let p := budgetLoop (manualSpent es) bs
    ⟨p.1, p.2, bs.length⟩

/-- Model of `check_budgets` in a deployment with pandas: same guards,
with the groupby-sum summary feeding the report loop. -/
def checkBudgetsPandas (es : List Expense) (bs : List (String × ℚ)) :
    BudgetReport :=
  if es.isEmpty then ⟨[], 0, 0⟩
  else if bs.isEmpty then ⟨[], 0, 0⟩
  else
    let p := budgetLoop (pandasSpent es) bs
    ⟨p.1, p.2, bs.length⟩

theorem summaryGet_addToSummary (s : List (String × ℚ)) (c : String)
    (a : ℚ) (c' : String) :
    summaryGet (addToSummary s c a) c' =
      summaryGet s c' + (if c = c' then a else 0) := by
  induction s with
  | nil =>
    by_cases h : c = c'
    · subst h; simp [addToSummary, summaryGet, List.lookup]
    · have hcc : (c' == c) = false :=
        beq_eq_false_iff_ne.mpr (fun hh => h hh.symm)
      simp [addToSummary, summaryGet, List.lookup, hcc, h]
  | cons kv rest ih =>
    obtain ⟨k, v⟩ := kv
    by_cases hk : k = c
    · subst hk
      by_cases h : k = c'
      · subst h
        simp [addToSummary, summaryGet, List.lookup]
      · have hcc : (c' == k) = false :=
          beq_eq_false_iff_ne.mpr (fun hh => h hh.symm)
        simp [addToSummary, summaryGet, List.lookup, hcc, h]
    · simp only [addToSummary, if_neg hk]
      by_cases h : k = c'
      · subst h
        have hck : ¬c = k := fun hh => hk hh.symm
        simp [summaryGet, List.lookup, hck]
      · have hcc : (c' == k) = false :=
          beq_eq_false_iff_ne.mpr (fun hh => h hh.symm)
        simp only [summaryGet, List.lookup, hcc]
        simpa [summaryGet] using ih

theorem summaryGet_foldl (es : List Expense) (s : List (String × ℚ))
    (c : String) :
    summaryGet (es.foldl (fun s e => addToSummary s e.category e.amount) s) c
      = summaryGet s c + pandasSpent es c := by
  induction es generalizing s with
  | nil => simp [pandasSpent]
  | cons e rest ih =>
    simp only [List.foldl_cons, ih, summaryGet_addToSummary]
    by_cases h : e.category = c
    all_goals simp [pandasSpent, h]
    all_goals ring

/-- The two spending summaries agree on every category. -/
theorem manualSpent_eq_pandasSpent (es : List Expense) (c : String) :
    manualSpent es c = pandasSpent es c := by
  unfold manualSpent manualSummary
  rw [summaryGet_foldl]
  simp [summaryGet, List.lookup]

/-- The report loop only depends on the summary through its values. -/
theorem budgetLoop_congr (f g : String → ℚ) (bs : List (String × ℚ))
    (h : ∀ c, f c = g c) : budgetLoop f bs = budgetLoop g bs := by
  induction bs with
  | nil => rfl
  | cons cb rest ih =>
    obtain ⟨c, b⟩ := cb
    simp [budgetLoop, h c, ih]

/-- Closed form of the report loop: one entry per budget line, computed
from the supplied summary, plus the over-budget count. -/
theorem budgetLoop_eq (spent : String → ℚ) (bs : List (String × ℚ)) :
    budgetLoop spent bs =
      (bs.map (fun p =>
        (p.1, (⟨p.2, spent p.1, p.2 - spent p.1,
          if p.2 - spent p.1 < 0 then "Over Budget" else "Good"⟩ :
            CategoryReport))),
       bs.countP (fun p => decide (p.2 - spent p.1 < 0))) := by
  induction bs with
  | nil => rfl
  | cons cb rest ih =>
    obtain ⟨c, b⟩ := cb
    simp only [budgetLoop, ih, List.map_cons, List.countP_cons]
    by_cases h : b - spent c < 0
    · simp [h]
      omega
    · simp [h]

/-- Operations a caller can run against the store, as exposed by the
CLI and the API: create, update, delete. -/
inductive Op where
  | create (amount : ℚ) (category : String) (dateStr : String)
      (description : String) (tags : Option (List String))
  | update (i : Int) (amount : Option ℚ) (category : Option String)
      (dateStr : Option String) (description : Option String)
      (tags : Option (List String))
  | delete (i : Int)

/-- Effect of one operation on the module state. -/
def applyOp (st : State) : Op → State
  | .create a c ds d tg => (createExpense st a c ds d tg).2
  | .update i a c ds d tg => (updateExpense st i a c ds d tg).2
  | .delete i => (deleteExpense st i).2

/-- State after a sequence of operations from process start. -/
def runOps (ops : List Op) : State :=
  ops.foldl applyOp initState

theorem applyUpdate_id (e : Expense) (a : Option ℚ) (c : Option String)
    (ds : Option String) (d : Option String) (t : Option (List String)) :
    ((applyUpdate e a c ds d t).2).id = e.id := by
  unfold applyUpdate
  rcases a with _ | a' <;> rcases c with _ | c' <;> rcases ds with _ | ds' <;>
    rcases d with _ | d' <;> rcases t with _ | t' <;> dsimp only <;>
    first
      | rfl
      | (rcases fromisoformat ds' with _ | dd <;> rfl)

theorem updateFirst_map_id (es : List Expense) (i : Int)
    (f : Expense → Bool × Expense) (hf : ∀ e, ((f e).2).id = e.id) :
    ((updateFirst es i f).2).map (fun e => e.id) =
      es.map (fun e => e.id) := by
  induction es with
  | nil => rfl
  | cons e rest ih =>
    by_cases h : e.id = i <;> simp [updateFirst, h, hf, ih]

/-- The store invariant: every live id is below the counter, and the
live ids are pairwise distinct. -/
def Inv (st : State) : Prop :=
  (∀ e ∈ st.expenses, e.id < st.nextId) ∧
  (st.expenses.map (fun e => e.id)).Nodup

theorem inv_initState : Inv initState := by
  constructor <;> simp [initState]

theorem inv_applyOp (st : State) (op : Op) (h : Inv st) :
    Inv (applyOp st op) := by
  obtain ⟨hb, hn⟩ := h
  cases op with
  | create a c ds d tg =>
    show Inv (createExpense st a c ds d tg).2
    cases hds : fromisoformat ds with
    | none => simpa only [createExpense, hds] using ⟨hb, hn⟩
    | some dt =>
      have hsteq : (createExpense st a c ds d tg).2 =
          ⟨st.expenses ++ [⟨st.nextId, a, c, dt, d, tg.getD []⟩],
           st.nextId + 1⟩ := by
        simp [createExpense, hds]
      rw [hsteq]
      constructor
      · intro e he
        simp only [List.mem_append, List.mem_singleton] at he
        rcases he with h1 | h1
        · exact lt_trans (hb e h1)
            (show st.nextId < st.nextId + 1 by omega)
        · subst h1
          show st.nextId < st.nextId + 1
          omega
      · show ((st.expenses ++
            [(⟨st.nextId, a, c, dt, d, tg.getD []⟩ : Expense)]).map
            (fun e => e.id)).Nodup
        simp only [List.map_append, List.map_cons, List.map_nil]
        rw [List.nodup_append]
        refine ⟨hn, List.nodup_singleton _, ?_⟩
        intro x hx hx'
        simp only [List.mem_singleton] at hx'
        obtain ⟨e, he, hei⟩ := List.mem_map.mp hx
        rw [hx'] at hei
        exact absurd hei (ne_of_lt (hb e he))
  | update i a c ds d tg =>
    have hmap := updateFirst_map_id st.expenses i
      (fun e => applyUpdate e a c ds d tg)
      (fun e => applyUpdate_id e a c ds d tg)
    constructor
    · intro e he
      have : e.id ∈ ((updateFirst st.expenses i
          (fun e => applyUpdate e a c ds d tg)).2).map (fun e => e.id) :=
        List.mem_map.mpr ⟨e, he, rfl⟩
      rw [hmap] at this
      obtain ⟨e0, he0, heq⟩ := List.mem_map.mp this
      exact heq ▸ hb e0 he0
    · simpa only [applyOp, updateExpense, hmap] using hn
  | delete i =>
    have hsub : (st.expenses.filter (fun e => e.id ≠ i)).Sublist
        st.expenses := List.filter_sublist st.expenses
    constructor
    · intro e he
      exact hb e (hsub.mem he)
    · exact (hsub.map (fun e => e.id)).nodup hn

theorem inv_foldl (ops : List Op) (st : State) (h : Inv st) :
    Inv (ops.foldl applyOp st) := by
  induction ops generalizing st with
  | nil => exact h
  | cons op rest ih => exact ih _ (inv_applyOp st op h)

theorem inv_runOps (ops : List Op) : Inv (runOps ops) :=
  inv_foldl ops initState inv_initState

theorem le_maxRowId (rows : List Row) (m : Int) : m ≤ maxRowId rows m := by
  induction rows generalizing m with
  | nil => exact le_refl m
  | cons r rest ih =>
    exact le_trans (le_max_left m r.id) (ih (max m r.id))

theorem mem_le_maxRowId (rows : List Row) (m : Int) (r : Row)
    (h : r ∈ rows) : r.id ≤ maxRowId rows m := by
  induction rows generalizing m with
  | nil => simp at h
  | cons r0 rest ih =>
    rcases List.mem_cons.mp h with h1 | h1
    · subst h1
      exact le_trans (le_max_right m r.id) (le_maxRowId rest _)
    · exact ih _ h1

/-- On an unparsable date, `update_expense` has already applied the
supplied amount and category to the record before returning `False`;
description and tags are still untouched. -/
theorem applyUpdate_baddate (e : Expense) (a : Option ℚ) (c : Option String)
    (d : Option String) (t : Option (List String)) (ds : String)
    (h : fromisoformat ds = none) :
    applyUpdate e a c (some ds) d t =
      (false, { e with amount := a.getD e.amount,
                       category := c.getD e.category }) := by
  unfold applyUpdate
  rcases a with _ | a' <;> rcases c with _ | c' <;> dsimp only <;> simp [h]

theorem updateFirst_fst_false (es : List Expense) (i : Int)
    (f : Expense → Bool × Expense) (hf : ∀ e, (f e).1 = false) :
    (updateFirst es i f).1 = false := by
  induction es with
  | nil => rfl
  | cons e rest ih =>
    by_cases h : e.id = i <;> simp [updateFirst, h, hf, ih]

theorem updateFirst_map_proj {α : Type} (π : Expense → α) (es : List Expense)
    (i : Int) (f : Expense → Bool × Expense)
    (hf : ∀ e, π (f e).2 = π e) :
    ((updateFirst es i f).2).map π = es.map π := by
  induction es with
  | nil => rfl
  | cons e rest ih =>
    by_cases h : e.id = i <;> simp [updateFirst, h, hf, ih]

theorem updateFirst_snd_id (es : List Expense) (i : Int)
    (f : Expense → Bool × Expense) (hf : ∀ e, (f e).2 = e) :
    (updateFirst es i f).2 = es := by
  induction es with
  | nil => rfl
  | cons e rest ih =>
    by_cases h : e.id = i <;> simp [updateFirst, h, hf, ih]

/-- Tail of the pipe join: the separator-prefixed remainder. -/
def tailJoin : List String → List Char
  | [] => []
  | t :: ts => '|' :: t.data ++ tailJoin ts

theorem intercalate_go_spec (as : List String) (acc : String) :
    String.intercalate.go acc "|" as = ⟨acc.data ++ tailJoin as⟩ := by
  induction as generalizing acc with
  | nil => simp [String.intercalate.go, tailJoin]
  | cons a as ih =>
    rw [String.intercalate.go, ih]
    simp [tailJoin]

theorem joinPipe_cons (t : String) (ts : List String) :
    joinPipe ((t :: ts).map String.data) = t.data ++ tailJoin ts := by
  induction ts generalizing t with
  | nil => simp [joinPipe, tailJoin]
  | cons t2 ts2 ih =>
    simp only [List.map_cons, joinPipe, tailJoin]
    rw [show (t2.data :: ts2.map String.data) =
      ((t2 :: ts2).map String.data) from rfl, ih]
    simp

/-- The hand-rolled pipe join coincides with `String.intercalate "|"`,
i.e. the tags column is the tags joined with the single reserved
separator. -/
theorem joinTags_eq_intercalate (ts : List String) :
    joinTags ts = String.intercalate "|" ts := by
  cases ts with
  | nil => rfl
  | cons t ts =>
    rw [joinTags, String.intercalate, intercalate_go_spec, joinPipe_cons]

theorem filterMap_some_of {α : Type} (l : List α) (f : α → Option α)
    (h : ∀ a ∈ l, f a = some a) : l.filterMap f = l := by
  induction l with
  | nil => rfl
  | cons a rest ih =>
    rw [List.filterMap_cons, h a (by simp)]
    rw [ih (fun x hx => h x (by simp [hx]))]

/-! Sample data used by the concrete witnesses and counterexamples. -/

/-- 2025-10-20, midnight. -/
def dt0 : DateTime := ⟨2025, 10, 20, 0, 0, 0⟩

/-- 2025-10-21, midnight. -/
def dt1 : DateTime := ⟨2025, 10, 21, 0, 0, 0⟩

/-- A plain record. -/
def expFood : Expense := ⟨1, 12, "Food", dt0, "Lunch at cafe", ["lunch", "work"]⟩

/-- A second record in another category. -/
def expGas : Expense := ⟨2, 45, "Transport", dt1, "Gas for car", ["car", "fuel"]⟩

/-- A record whose tag list is the single empty string. -/
def expEmptyTag : Expense := ⟨3, 7, "Other", dt0, "odd", [""]⟩

/-- A record whose stored category carries a trailing blank. -/
def expTrailing : Expense := ⟨7, 5, "Food ", dt0, "padded", []⟩

/-- A record in category `Foodie`. -/
def expFoodie : Expense := ⟨8, 6, "Foodie", dt0, "snack", []⟩

/-- Store holding the single record `expFood`, counter at 2. -/
def st1 : State := ⟨[expFood], 2⟩

/-- A well-formed persisted row (decodes to id 3). -/
def rowGood : Row := ⟨3, 12, "Food", "2025-10-20", "Lunch", "lunch|work"⟩

/-- The record `rowGood` decodes to. -/
def expRowGood : Expense := ⟨3, 12, "Food", dt0, "Lunch", ["lunch", "work"]⟩

/-- A malformed persisted row: its date does not parse. -/
def rowBad : Row := ⟨4, 9, "Food", "not-a-date", "broken", ""⟩

/-- Rows with ids 3, 7, 9 for the allocator-continuity example. -/
def row7 : Row := ⟨7, 3, "Food", "2025-10-21", "Snack", ""⟩

/-- Row with id 9. -/
def row9 : Row := ⟨9, 4, "Other", "2025-10-22", "Misc", "a"⟩

/-- Two `Food` records totalling 120. -/
def expOver1 : Expense := ⟨1, 70, "Food", dt0, "Groceries", []⟩

/-- Second `Food` record of the over-budget example. -/
def expOver2 : Expense := ⟨2, 50, "Food", dt1, "Dinner", []⟩

/-! Claims. -/

/-- C1, counterexample: the round trip `decode(encode(r)) == r` fails as
stated on the valid record whose tag list is the single empty string —
`[""]` joins to the empty tags field, which decodes back to `[]`, so the
decoded record differs from the original. -/
theorem c1_roundtrip_cex :
    decodeRow (encodeExpense expEmptyTag) =
      some { expEmptyTag with tags := ([] : List String) } ∧
    expEmptyTag.tags = [""] ∧
    ({ expEmptyTag with tags := ([] : List String) } : Expense) ≠
      expEmptyTag := by
  refine ⟨by decide, rfl, by decide⟩

/-- C1, amended: saving then loading reproduces the records
field-for-field and in order, and `decode(encode(r)) == r` per record —
for every record whose date is constructor-valid, whose tags avoid the
reserved separator `|`, and whose tag list is not the single empty
string `[""]`; in particular `tags == []` decodes back to `[]`. -/
theorem c1_roundtrip (records : List Expense) (nid : Int)
    (hdate : ∀ r ∈ records, r.date.Valid)
    (htags : ∀ r ∈ records, ∀ t ∈ r.tags, ('|' : Char) ∉ t.data)
    (hsingle : ∀ r ∈ records, r.tags ≠ [""]) :
    (loadExpenses (saveExpenses records) nid).1 = records ∧
    ∀ r ∈ records, decodeRow (encodeExpense r) = some r := by
  have hdec : ∀ r ∈ records, decodeRow (encodeExpense r) = some r :=
    fun r hr =>
      decodeRow_encodeExpense r (hdate r hr) (htags r hr) (hsingle r hr)
  refine ⟨?_, hdec⟩
  unfold loadExpenses saveExpenses
  have hall : ∀ row ∈ records.map encodeExpense, (decodeRow row).isSome := by
    intro row hrow
    obtain ⟨r, hr, rfl⟩ := List.mem_map.mp hrow
    rw [hdec r hr]
    rfl
  rw [loadLoop_all_ok _ nid 0 [] hall]
  simp only [List.nil_append, List.filterMap_map]
  exact filterMap_some_of records _ (fun r hr => hdec r hr)

/-- C1, witness: two concrete well-formed records (one with empty tags)
survive the bulk save/load round trip unchanged. -/
theorem c1_roundtrip_witness :
    (loadExpenses (saveExpenses [expFood, expTrailing]) 1).1 =
      [expFood, expTrailing] :=
  (c1_roundtrip [expFood, expTrailing] 1 (by decide) (by decide)
    (by decide)).1

/-- C2: for every record set (including the empty one) and every budget
mapping, the manual iteration-and-accumulation path and the pandas
columnar path yield identical per-category totals and identical budget
reports. -/
theorem c2_aggregation_equivalence :
    (∀ es c, manualSpent es c = pandasSpent es c) ∧
    (∀ es bs, checkBudgetsManual es bs = checkBudgetsPandas es bs) := by
  refine ⟨manualSpent_eq_pandasSpent, ?_⟩
  intro es bs
  unfold checkBudgetsManual checkBudgetsPandas
  by_cases h1 : es.isEmpty
  · simp [h1]
  · by_cases h2 : bs.isEmpty
    · simp [h1, h2]
    · simp only [h1, h2, if_false, Bool.false_eq_true]
      rw [budgetLoop_congr (manualSpent es) (pandasSpent es) bs
        (manualSpent_eq_pandasSpent es)]

/-- C3, counterexample: loading an empty persisted record set does not
reset the allocator to 1 — after one successful create (counter 2), a
bulk load of zero rows leaves the counter at 2, not 1, although the
loaded collection is empty. -/
theorem c3_empty_reload_cex :
    (loadExpenses []
      ((createExpense initState 10 "Food" "2025-10-20" "Lunch" none).2).nextId).1
      = [] ∧
    (loadExpenses []
      ((createExpense initState 10 "Food" "2025-10-20" "Lunch" none).2).nextId).2
      = 2 ∧
    (2 : Int) ≠ 1 := by
  refine ⟨by decide, by decide, by decide⟩

/-- C3, amended: after a bulk load of a nonempty persisted record set
(all rows well-formed, all ids at least 1) the allocator's counter
equals `max(existing IDs) + 1`, every loaded id is below it, and the
next successful create returns exactly `max + 1`; loading an empty set,
however, leaves the counter unchanged (so it is 1 only in a fresh
process). -/
theorem c3_allocator_continuity (rows : List Row) (nid : Int)
    (hne : rows ≠ [])
    (hdec : ∀ r ∈ rows, (decodeRow r).isSome)
    (hpos : ∀ r ∈ rows, 1 ≤ r.id) :
    (loadExpenses rows nid).2 = maxRowId rows 0 + 1 ∧
    (∀ r ∈ rows, r.id < (loadExpenses rows nid).2) ∧
    (∀ a c ds d tg e,
      (createExpense ⟨(loadExpenses rows nid).1, (loadExpenses rows nid).2⟩
        a c ds d tg).1 = some e → e.id = maxRowId rows 0 + 1) := by
  obtain ⟨r0, hr0⟩ : ∃ r, r ∈ rows := by
    cases rows with
    | nil => exact absurd rfl hne
    | cons r rest => exact ⟨r, by simp⟩
  have hmax : 0 < maxRowId rows 0 :=
    lt_of_lt_of_le (hpos r0 hr0) (mem_le_maxRowId rows 0 r0 hr0)
  have hcounter : (loadExpenses rows nid).2 = maxRowId rows 0 + 1 := by
    unfold loadExpenses
    rw [loadLoop_all_ok rows nid 0 [] hdec]
    simp [hmax]
  refine ⟨hcounter, ?_, ?_⟩
  · intro r hr
    rw [hcounter]
    exact lt_of_le_of_lt (mem_le_maxRowId rows 0 r hr) (by omega)
  · intro a c ds d tg e he
    unfold createExpense at he
    cases hds : fromisoformat ds with
    | none =>
      rw [hds] at he
      simp at he
    | some dt =>
      rw [hds] at he
      simp only [Option.some.injEq] at he
      rw [← he]
      exact hcounter

/-- C3, witness: loading rows with ids 3, 7, 9 sets the counter to 10,
and the next create call yields id 10. -/
theorem c3_allocator_continuity_witness :
    (loadExpenses [rowGood, row7, row9] 1).2 =
      maxRowId [rowGood, row7, row9] 0 + 1 ∧
    maxRowId [rowGood, row7, row9] 0 + 1 = 10 := by
  refine ⟨(c3_allocator_continuity [rowGood, row7, row9] 1 (by decide)
    (by decide) (by decide)).1, by decide⟩

/-- C4, counterexample: an update supplying both a new amount and an
unparsable date returns failure yet has already overwritten the amount
(12 becomes 50) — the record is not left unmodified, so the update is
not atomic on a bad date. -/
theorem c4_update_baddate_cex :
    (updateExpense st1 1 (some 50) none (some "not-a-date") none none).1
      = false ∧
    ((updateExpense st1 1 (some 50) none (some "not-a-date") none none).2.expenses.map
      (fun e => e.amount)) = [50] ∧
    expFood.amount = 12 := by
  refine ⟨by decide, by decide, by decide⟩

/-- C4, amended: an update supplying an unparsable date returns failure
and never touches id, date, description or tags of any record, and a
call supplying only the bad date leaves the store fully unchanged; but
an amount or category supplied in the same call has already been applied
when the failure is reported (partial mutation, see the
counterexample). -/
theorem c4_update_baddate (st : State) (i : Int) (a : Option ℚ)
    (c : Option String) (ds : String) (d : Option String)
    (t : Option (List String)) (h : fromisoformat ds = none) :
    (updateExpense st i a c (some ds) d t).1 = false ∧
    (updateExpense st i a c (some ds) d t).2.nextId = st.nextId ∧
    ((updateExpense st i a c (some ds) d t).2.expenses.map
      (fun e => (e.id, e.date, e.description, e.tags)) =
      st.expenses.map (fun e => (e.id, e.date, e.description, e.tags))) ∧
    (a = none → c = none →
      updateExpense st i a c (some ds) d t = (false, st)) := by
  have hf : ∀ e, applyUpdate e a c (some ds) d t =
      (false, { e with amount := a.getD e.amount,
                       category := c.getD e.category }) :=
    fun e => applyUpdate_baddate e a c d t ds h
  refine ⟨?_, rfl, ?_, ?_⟩
  · exact updateFirst_fst_false st.expenses i _ (fun e => by rw [hf e])
  · exact updateFirst_map_proj _ st.expenses i _ (fun e => by rw [hf e])
  · intro ha hc
    subst ha
    subst hc
    have h1 : (updateFirst st.expenses i
        (fun e => applyUpdate e none none (some ds) d t)).1 = false :=
      updateFirst_fst_false st.expenses i _ (fun e => by rw [hf e])
    have h2 : (updateFirst st.expenses i
        (fun e => applyUpdate e none none (some ds) d t)).2 = st.expenses :=
      updateFirst_snd_id st.expenses i _ (fun e => by rw [hf e]; rfl)
    simp only [updateExpense, h1, h2]

/-- C4, witness: a concrete update call supplying only an unparsable
date fails and leaves the store exactly as it was. -/
theorem c4_update_baddate_witness :
    fromisoformat "oops" = none ∧
    updateExpense st1 1 none none (some "oops") none none = (false, st1) :=
  ⟨by decide,
   (c4_update_baddate st1 1 none none "oops" none none (by decide)).2.2.2
     rfl rfl⟩

/-- C5, counterexample: the bulk load does not skip a malformed row and
keep the rest — one bad row makes `load_expenses` catch the exception
and return the empty list, so the preceding well-formed row is lost
instead of loaded. -/
theorem c5_skip_policy_cex :
    decodeRow rowGood = some expRowGood ∧
    decodeRow rowBad = none ∧
    (loadExpenses [rowGood, rowBad] 1).1 = [] ∧
    (loadExpenses [rowGood, rowBad] 1).1 ≠ [expRowGood] := by
  refine ⟨by decide, by decide, by decide, by decide⟩

/-- C5, amended: a row that fails to decode aborts the entire load —
whatever well-formed rows precede or follow it, `load_expenses` returns
the empty list (after consuming one allocator increment per row decoded
before the failure). -/
theorem c5_bad_row_aborts (good : List Row) (bad : Row) (rest : List Row)
    (nid : Int) (hg : ∀ r ∈ good, (decodeRow r).isSome)
    (hb : decodeRow bad = none) :
    loadExpenses (good ++ bad :: rest) nid = ([], nid + good.length) := by
  unfold loadExpenses
  exact loadLoop_abort good bad rest nid 0 [] hg hb

/-- C5, witness: a bad row sandwiched between two good rows wipes the
whole load. -/
theorem c5_bad_row_aborts_witness :
    loadExpenses ([rowGood] ++ rowBad :: [row7]) 1 =
      ([], (1 : Int) + (([rowGood] : List Row).length : Int)) :=
  c5_bad_row_aborts [rowGood] rowBad [row7] 1 (by decide) (by decide)

/-- C6: with records and budgets both present, the report (on either
computation path) has one entry per budget category — including
categories with no expenses, where spent is 0 — with
`spent = sum of that category's amounts`, `remaining = budget - spent`,
status `Over Budget` exactly when remaining is negative,
`over_budget_count` counting the negative-remaining categories and
`total_budgets` the number of budget entries; with no records or no
budgets the zeroed empty report is returned rather than a failure. -/
theorem c6_budget_status (es : List Expense) (bs : List (String × ℚ)) :
    (es ≠ [] → bs ≠ [] →
      checkBudgetsManual es bs =
        ⟨bs.map (fun p => (p.1,
          (⟨p.2, pandasSpent es p.1, p.2 - pandasSpent es p.1,
            if p.2 - pandasSpent es p.1 < 0 then "Over Budget"
            else "Good"⟩ : CategoryReport))),
         bs.countP (fun p => decide (p.2 - pandasSpent es p.1 < 0)),
         bs.length⟩ ∧
      checkBudgetsPandas es bs =
        ⟨bs.map (fun p => (p.1,
          (⟨p.2, pandasSpent es p.1, p.2 - pandasSpent es p.1,
            if p.2 - pandasSpent es p.1 < 0 then "Over Budget"
            else "Good"⟩ : CategoryReport))),
         bs.countP (fun p => decide (p.2 - pandasSpent es p.1 < 0)),
         bs.length⟩) ∧
    (es = [] ∨ bs = [] →
      checkBudgetsManual es bs = ⟨[], 0, 0⟩ ∧
      checkBudgetsPandas es bs = ⟨[], 0, 0⟩) := by
  constructor
  · intro h1 h2
    have he1 : es.isEmpty = false := by
      cases es with
      | nil => exact absurd rfl h1
      | cons x xs => rfl
    have he2 : bs.isEmpty = false := by
      cases bs with
      | nil => exact absurd rfl h2
      | cons x xs => rfl
    constructor
    · unfold checkBudgetsManual
      rw [he1, he2]
      simp only [Bool.false_eq_true, if_false]
      rw [budgetLoop_eq]
      simp only [manualSpent_eq_pandasSpent]
    · unfold checkBudgetsPandas
      rw [he1, he2]
      simp only [Bool.false_eq_true, if_false]
      rw [budgetLoop_eq]
  · intro h
    rcases h with rfl | rfl
    · exact ⟨rfl, rfl⟩
    · unfold checkBudgetsManual checkBudgetsPandas
      constructor
      · cases hes : es.isEmpty <;> simp
      · cases hes : es.isEmpty <;> simp

/-- C6, witness: the spec example — budgets `Food: 100`, records
totalling 120 in `Food` — yields remaining -20, status `Over Budget`,
over-budget count 1, total budgets 1. -/
theorem c6_budget_status_witness :
    checkBudgetsManual [expOver1, expOver2] [("Food", (100 : ℚ))] =
      ⟨[("Food", ⟨100, 120, -20, "Over Budget"⟩)], 1, 1⟩ := by
  have h := ((c6_budget_status [expOver1, expOver2]
    [("Food", (100 : ℚ))]).1 (by decide) (by decide)).1
  rw [h]
  have hs : pandasSpent [expOver1, expOver2] "Food" = 120 := by
    simp [pandasSpent, expOver1, expOver2]
    norm_num
  simp only [List.map_cons, List.map_nil, List.countP_cons,
    List.countP_nil, List.length_cons, List.length_nil, hs]
  norm_num

/-- C7, counterexample: the category filter does not trim the record
side — a record whose stored category is `"Food "` (trailing blank) is
excluded by `filter(category="Food")` even though the two categories are
equal case-insensitively after trimming both sides. -/
theorem c7_filter_trim_cex :
    filterExpenses [expTrailing] (some "Food") none = [] ∧
    lower (strip expTrailing.category) = lower (strip "Food") := by
  refine ⟨by decide, by decide⟩

/-- C7, amended: with both arguments omitted (or blank) the filter
returns the full collection; a non-blank category argument selects
exactly the records whose lowered stored category equals the stripped,
lowered argument (the record side is not stripped); a non-blank tag
argument selects exactly the records whose lowered tags contain the
stripped, lowered argument; with both supplied, both conditions must
hold. -/
theorem c7_filter (es : List Expense) (c t : String) :
    (filterExpenses es none none = es) ∧
    (strip c ≠ "" → filterExpenses es (some c) none =
      es.filter (fun e => lower e.category == lower (strip c))) ∧
    (strip t ≠ "" → filterExpenses es none (some t) =
      es.filter (fun e =>
        (e.tags.map lower).contains (lower (strip t)))) ∧
    (strip c ≠ "" → strip t ≠ "" →
      filterExpenses es (some c) (some t) =
      es.filter (fun e => (lower e.category == lower (strip c)) &&
        (e.tags.map lower).contains (lower (strip t)))) := by
  refine ⟨rfl, ?_, ?_, ?_⟩
  · intro hc
    unfold filterExpenses
    dsimp only
    rw [if_pos hc]
  · intro ht
    unfold filterExpenses
    dsimp only
    rw [if_pos ht]
  · intro hc ht
    unfold filterExpenses
    dsimp only
    rw [if_pos hc, if_pos ht, List.filter_filter]
    exact List.filter_congr (fun e _ => by rw [Bool.and_comm])

/-- C7, witness: `filter(category="food")` matches the record with
category `Food` and excludes the one with category `Foodie`. -/
theorem c7_filter_witness :
    filterExpenses [expFood, expFoodie] (some "food") none =
      List.filter (fun e => lower e.category == lower (strip "food"))
        [expFood, expFoodie] ∧
    List.filter (fun e => lower e.category == lower (strip "food"))
      [expFood, expFoodie] = [expFood] :=
  ⟨(c7_filter [expFood, expFoodie] "food" "x").2.1 (by decide),
   by decide⟩

/-- C8: after every sequence of create, update and delete operations
starting from the empty store, the ids of the live records are pairwise
distinct, and every live id sits strictly below the allocator counter
(so the next create can never collide). -/
theorem c8_id_uniqueness (ops : List Op) :
    ((runOps ops).expenses.map (fun e => e.id)).Nodup ∧
    ∀ e ∈ (runOps ops).expenses, e.id < (runOps ops).nextId := by
  obtain ⟨h1, h2⟩ := inv_runOps ops
  exact ⟨h2, h1⟩

/-- C9, counterexample: the encoded date column is not in `YYYY-MM-DD`
form — encoding a record dated 2025-10-20 produces the 19-character
string `2025-10-20T00:00:00` (with a time-of-day component), not the
10-character date-only form. -/
theorem c9_date_format_cex :
    (encodeExpense expFood).date = "2025-10-20T00:00:00" ∧
    ("2025-10-20T00:00:00" : String).length ≠ 10 := by
  refine ⟨by decide, by decide⟩

/-- C9, amended: the encoded date column is the full ISO-8601 instant —
the 10-character `YYYY-MM-DD` date part, a `T` separator, and an
`HH:MM:SS` time part — and the tags column is the tags joined with the
single reserved separator `|`. -/
theorem c9_encoded_date_form (e : Expense) :
    (encodeExpense e).date = isodate e.date ++ "T" ++ isotime e.date ∧
    (isodate e.date).length = 10 ∧
    (isotime e.date).length = 8 ∧
    (encodeExpense e).tags = String.intercalate "|" e.tags := by
  refine ⟨?_, ?_, ?_, joinTags_eq_intercalate e.tags⟩
  · show DateTime.isoformat e.date = _
    unfold DateTime.isoformat isodate isotime
    show String.mk _ = String.mk ((isodateChars e.date ++ ['T']) ++
      isotimeChars e.date)
    rw [List.append_assoc]
    rfl
  · show (isodateChars e.date).length = 10
    simp [isodateChars, pad4, pad2]
  · show (isotimeChars e.date).length = 8
    simp [isotimeChars, pad2]

/-- C10: a create call with an unparsable date returns the not-created
signal and is fully side-effect-free — the collection and the allocator
counter are unchanged, so a subsequent successful create still receives
the id the failed call would otherwise have consumed. -/
theorem c10_failed_create_side_effect_free (st : State) (a : ℚ)
    (c : String) (ds : String) (d : String) (tg : Option (List String))
    (h : fromisoformat ds = none) :
    (createExpense st a c ds d tg).1 = none ∧
    (createExpense st a c ds d tg).2 = st ∧
    (∀ a2 c2 ds2 d2 tg2 e,
      (createExpense (createExpense st a c ds d tg).2 a2 c2 ds2 d2 tg2).1 =
        some e → e.id = st.nextId) := by
  have h2 : createExpense st a c ds d tg = (none, st) := by
    unfold createExpense
    rw [h]
  refine ⟨by rw [h2], by rw [h2], ?_⟩
  intro a2 c2 ds2 d2 tg2 e he
  rw [h2] at he
  unfold createExpense at he
  cases hds2 : fromisoformat ds2 with
  | none =>
    rw [hds2] at he
    simp at he
  | some dt =>
    rw [hds2] at he
    simp only [Option.some.injEq] at he
    rw [← he]

/-- C10, witness: a create with the malformed date `2025-99-99` on a
concrete store changes nothing, and the next successful create takes the
id the failed call did not consume. -/
theorem c10_failed_create_witness :
    fromisoformat "2025-99-99" = none ∧
    (createExpense st1 33 "Food" "2025-99-99" "bad" none).1 = none ∧
    (createExpense st1 33 "Food" "2025-99-99" "bad" none).2 = st1 :=
  ⟨by decide,
   (c10_failed_create_side_effect_free st1 33 "Food" "2025-99-99" "bad"
     none (by decide)).1,
   (c10_failed_create_side_effect_free st1 33 "Food" "2025-99-99" "bad"
     none (by decide)).2.1⟩

end ExpenseTracker
